import Mathlib

/-!
Verification of the consumption-path planner of `xdrngtool`
(`src/xdrngtool/search_path.py`).

The planner steers a deterministic PRNG from a current seed to a target
seed.  `search_path` scans quick-battle probe generations, chooses how many
to keep, and combines two advance-only actions (change-setting, 40 steps;
write-report, 63 steps) so the consumed steps equal the step distance
between the two seeds.  `_search_pair_with_the_smallest_sum` solves
`63*x + 40*y = total` over non-negative integers minimising `x + y`.

Shallow embedding notes:
* The LCG, quick-battle generation and decoding are external to the
  analysed source.  They are abstracted by `ProbeModel`: `cost k` is the
  number of generator steps consumed by the k-th quick-battle generation,
  `team k` / `psvs k` its decoded payload (opaque to the planner), and
  `seedAt i` the seed value after `i` steps from the current seed.
  `total_advances` (the value of `LCG.get_index`) is a parameter.
* Python's floor division `//` and floor modulus `%` on `int` are
  `Int.fdiv` / `Int.fmod`.  `math.floor(-11 * total / 63)` is embedded as
  the exact floor `Int.fdiv (-11 * total) 63`; for seeds in the 32-bit
  domain the float computation is exact, and the derivation in the source
  is stated over exact rationals.
* The scanning `while` loop is embedded with explicit fuel; with every
  probe consuming at least one step, fuel `total_advances + 2` is proved
  sufficient, and fuel exhaustion is the `none` of the outer `Option`.
* `raise` is embedded as `Except.error`; the single exception raised by
  `search_path` carries the two seeds.
-/

/-- Modelled from the spec: `constant.py` is not part of the analysed
source; §6 of the spec fixes `CHANGE_SETTING_STEPS = 40`. -/
def ADVANCES_BY_CHANGING_SETTING : Int := 40

/-- Modelled from the spec: `constant.py` is not part of the analysed
source; §6 of the spec fixes `WRITE_REPORT_STEPS = 63`. -/
def ADVANCES_BY_WRITING_REPORT : Int := 63

/-- Abstraction of the external LCG / quick-battle sampler: step cost,
decoded team payload and decoded psv set of the k-th generation, and the
seed value reached after a given number of steps from the current seed. -/
structure ProbeModel where
  cost : Nat → Nat
  team : Nat → Nat
  psvs : Nat → List Nat
  seedAt : Nat → Nat

/-- The single exception raised by `search_path`
(`No way to reach {target} from {current}`); it carries both seeds. -/
inductive PlanError where
  | unreachable (current_seed target_seed : Nat) : PlanError
deriving DecidableEq

/-- A reconstructed path: the probe records `(team, seed before the
generation, psvs)`, the change-setting count and the write-report count. -/
abbrev PathResult := List (Nat × Nat × List Nat) × Int × Int

/-- Embedding of the scanning loop
`while lcg.index_from(current_seed) <= total_advances: ... append (team, leftover)`.
`fuel` bounds the number of iterations; `k` is the number of generations
performed so far, `index` the current LCG index, `acc` the list built so
far.  Each appended entry is `(k, total - index')` with `index'` the index
after the k-th generation. -/
def scanAux (M : ProbeModel) (total : Nat) :
    Nat → Nat → Nat → List (Nat × Int) → Option (List (Nat × Int))
  | 0, _, index, acc => if index ≤ total then none else some acc
  | fuel + 1, k, index, acc =>
    if index ≤ total then
      scanAux M total fuel (k + 1) (index + M.cost k)
        (acc ++ [(k, (total : Int) - ((index + M.cost k : Nat) : Int))])
    else some acc

/-- The raw generated sequence (before the final `sequence.pop()`). -/
def scanSequence (M : ProbeModel) (total_advances : Nat) : Option (List (Nat × Int)) :=
  scanAux M total_advances (total_advances + 2) 0 0 []

/-- Embedding of `list.pop()`: removing the last element fails (IndexError)
on an empty list. -/
def popLast {α : Type} (l : List α) : Option (List α) :=
  if l.isEmpty then none else some l.dropLast

/-- The retained probe sequence: the raw scan with its final overshooting
entry popped. -/
def sequencePopped (M : ProbeModel) (total_advances : Nat) : Option (List (Nat × Int)) :=
  (scanSequence M total_advances).bind popLast

/-- Embedding of lines 61-66: `can_finish = [item[1] % 40 == 0 ...]`,
`last_index = len(can_finish) - can_finish[::-1].index(True) - 1`, with the
`ValueError` (no `True` present) as `none`. -/
def lastFinishIndex (sequence : List (Nat × Int)) : Option Nat :=
  let can_finish := sequence.map (fun item => Int.fmod item.2 ADVANCES_BY_CHANGING_SETTING == 0)
  (can_finish.reverse.findIdx? id).map (fun j => can_finish.length - j - 1)

/-- Embedding of the loading-mode truncation loop (lines 88-92):
`while sequence[-1][1] < bound: sequence.pop()`, where indexing the empty
list raises IndexError which is caught and ignored. -/
def dropTrailingLoop (bound : Int) (l : List (Nat × Int)) : List (Nat × Int) :=
  match h : l.getLast? with
  | none => l
  | some e =>
    if e.2 < bound then dropTrailingLoop bound l.dropLast else l
termination_by l.length
decreasing_by
  obtain ⟨ys, rfl⟩ := List.getLast?_eq_some_iff.mp h
  simp [List.length_dropLast]

/-- Index of the LCG before the k-th generation: the sum of the costs of
the earlier generations. -/
def stepsBefore (M : ProbeModel) : Nat → Nat
  | 0 => 0
  | k + 1 => stepsBefore M k + M.cost k

/-- Embedding of the reconstruction loop (lines 106-111): re-sample one
generation per retained team, recording the decoded team, the seed before
the generation and the psvs. -/
def reconstruct (M : ProbeModel) (_teams : List Nat) : List (Nat × Nat × List Nat) :=
  (List.range _teams.length).map
    (fun k => (M.team k, M.seedAt (stepsBefore M k), M.psvs k))

/-- Embedding of lines 161-165: collect all `(x, y)` with `x` in
`range(total//63 + 1)`, `y` in `range(total//40 + 1)` and
`63*x + 40*y == total`. -/
def solutionPairs (total_advances : Int) : List (Int × Int) :=
  (List.range (total_advances.fdiv 63 + 1).toNat).flatMap (fun (x : Nat) =>
    (List.range (total_advances.fdiv 40 + 1).toNat).filterMap (fun (y : Nat) =>
      if 63 * (x : Int) + 40 * (y : Int) = total_advances then
        some ((x : Int), (y : Int))
      else none))

/-- Embedding of `sorted(pairs, key=lambda p: p[0] + p[1]).pop(0)`: the
first element of a stable sort by key is the first element attaining the
minimal key. -/
def pickFirstMin : List (Int × Int) → Option (Int × Int)
  | [] => none
  | p :: rest =>
    match pickFirstMin rest with
    | none => some p
    | some q => if q.1 + q.2 < p.1 + p.2 then some q else some p

/-- Embedding of `_search_pair_with_the_smallest_sum_under_2520`
(exhaustive search; the `raise` on an empty pair list is `none`). -/
def _search_pair_with_the_smallest_sum_under_2520 (total_advances : Int) :
    Option (Int × Int) :=
  pickFirstMin (solutionPairs total_advances)

/-- Embedding of `_search_pair_with_the_smallest_sum`: closed form
`t = floor(-11*total/63)`, `(40*t + 7*total, -63*t - 11*total)` for
`total >= 2520`, exhaustive search below. -/
def _search_pair_with_the_smallest_sum (total_advances : Int) : Option (Int × Int) :=
  if total_advances < 2520 then
    _search_pair_with_the_smallest_sum_under_2520 total_advances
  else
    some (40 * Int.fdiv (-11 * total_advances) 63 + 7 * total_advances,
          -63 * Int.fdiv (-11 * total_advances) 63 - 11 * total_advances)

/-- Embedding of the body of `search_path` after the scan and the pop:
mode dispatch on `advances_by_opening_items`, truncation, solver call and
reconstruction. -/
def searchPathCore (M : ProbeModel) (current_seed target_seed : Nat)
    (total_advances : Nat) (advances_by_opening_items : Option Int)
    (sequence : List (Nat × Int)) : Except PlanError PathResult :=
  match advances_by_opening_items with
  | none =>
    if sequence.isEmpty then
      if Int.fmod (total_advances : Int) ADVANCES_BY_CHANGING_SETTING ≠ 0 then
        Except.error (PlanError.unreachable current_seed target_seed)
      else
        Except.ok (reconstruct M [],
          Int.fdiv (total_advances : Int) ADVANCES_BY_CHANGING_SETTING, 0)
    else
      match lastFinishIndex sequence with
      | none => Except.error (PlanError.unreachable current_seed target_seed)
      | some last_index =>
        if last_index = 0 then
          Except.ok (reconstruct M (sequence.map Prod.fst),
            Int.fdiv (sequence.headD (0, 0)).2 ADVANCES_BY_CHANGING_SETTING, 0)
        else
          Except.ok (reconstruct M ((sequence.map Prod.fst).take (last_index + 1)),
            Int.fdiv ((sequence.take (last_index + 1)).getLastD (0, 0)).2
              ADVANCES_BY_CHANGING_SETTING, 0)
  | some advances_by_opening_items =>
    let advances_by_loading : Int := (advances_by_opening_items - 1) * 2
    let sequence' := dropTrailingLoop
      (ADVANCES_BY_WRITING_REPORT * ADVANCES_BY_CHANGING_SETTING + advances_by_loading)
      sequence
    let leftover : Int :=
      match sequence'.getLast? with
      | none => (total_advances : Int) - advances_by_loading
      | some e => e.2 - advances_by_loading
    match _search_pair_with_the_smallest_sum leftover with
    | none => Except.error (PlanError.unreachable current_seed target_seed)
    | some (write_report, change_setting) =>
      Except.ok (reconstruct M (sequence'.map Prod.fst), change_setting, write_report)

/-- Embedding of `search_path`.  The outer `Option` carries the two
embedding artefacts that cannot occur for positive probe costs: fuel
exhaustion of the scan and `pop()` on an empty list. -/
def search_path (M : ProbeModel) (current_seed target_seed : Nat)
    (total_advances : Nat) (advances_by_opening_items : Option Int) :
    Option (Except PlanError PathResult) :=
  (sequencePopped M total_advances).map
    (searchPathCore M current_seed target_seed total_advances advances_by_opening_items)

/-- The value on which the loading branch invokes the Action-Cost Solver:
the last retained entry's leftover minus the loading steps, or
`total_advances` minus the loading steps when everything was dropped. -/
def loadingLeftover (total_advances : Nat) (advances_by_opening_items : Int)
    (sequence : List (Nat × Int)) : Int :=
  let advances_by_loading : Int := (advances_by_opening_items - 1) * 2
  match (dropTrailingLoop
      (ADVANCES_BY_WRITING_REPORT * ADVANCES_BY_CHANGING_SETTING + advances_by_loading)
      sequence).getLast? with
  | none => (total_advances : Int) - advances_by_loading
  | some e => e.2 - advances_by_loading

/-- Total steps consumed when replaying a returned path: the steps of the
recorded probe generations plus the two action costs. -/
def consumedSteps (M : ProbeModel) (p : PathResult) : Int :=
  (stepsBefore M p.1.length : Int)
    + ADVANCES_BY_CHANGING_SETTING * p.2.1
    + ADVANCES_BY_WRITING_REPORT * p.2.2

/-- Spec-side notion of an optimal action pair for a given total:
`(write_report, change_setting)` non-negative, `63*x + 40*y = total`, and
of minimal sum among all such pairs. -/
def IsOptimalPair (total : Int) (p : Int × Int) : Prop :=
  0 ≤ p.1 ∧ 0 ≤ p.2 ∧ 63 * p.1 + 40 * p.2 = total ∧
    ∀ q : Int × Int, 0 ≤ q.1 → 0 ≤ q.2 → 63 * q.1 + 40 * q.2 = total →
      p.1 + p.2 ≤ q.1 + q.2

/-- Declared from the spec's words for C5: "drops trailing probe entries
while the last entry's leftover is strictly less than the bound, until an
entry satisfies the bound or the sequence is empty". -/
def specRetained (bound : Int) (l : List (Nat × Int)) : List (Nat × Int) :=
  (l.reverse.dropWhile (fun e => decide (e.2 < bound))).reverse

/-- Concrete probe model exhibiting the index-0 truncation slip: the first
generation costs 17 steps, every later one 30. -/
def Mtest : ProbeModel where
  cost := fun k => if k = 0 then 17 else 30
  team := fun k => k
  psvs := fun _ => []
  seedAt := fun i => i

/-- Concrete probe model whose first generation overshoots small distances:
every generation costs 100 steps. -/
def Mbig : ProbeModel where
  cost := fun _ => 100
  team := fun k => k
  psvs := fun _ => []
  seedAt := fun i => i

/-! ## Bridges from Python floor division to Euclidean division

For a non-negative divisor, `Int.fdiv` and `Int.fmod` agree with Lean's
`/` and `%` on `Int`, which `omega` understands. -/

lemma fdiv_sixtythree (a : Int) : a.fdiv 63 = a / 63 :=
  Int.fdiv_eq_ediv a (by norm_num)

lemma fdiv_forty (a : Int) : a.fdiv 40 = a / 40 :=
  Int.fdiv_eq_ediv a (by norm_num)

lemma fmod_forty (a : Int) : a.fmod 40 = a % 40 :=
  Int.fmod_eq_emod a (by norm_num)

/-! ## The Action-Cost Solver -/

/-- The exhaustive enumeration collects exactly the non-negative solutions
of `63*x + 40*y = total`. -/
lemma mem_solutionPairs {z : Int} {p : Int × Int} :
    p ∈ solutionPairs z ↔ 0 ≤ p.1 ∧ 0 ≤ p.2 ∧ 63 * p.1 + 40 * p.2 = z := by
  constructor
  · intro hp
    obtain ⟨x, _, hx⟩ := List.mem_flatMap.mp hp
    obtain ⟨y, _, hif⟩ := List.mem_filterMap.mp hx
    by_cases hc : 63 * (x : Int) + 40 * (y : Int) = z
    · rw [if_pos hc] at hif
      obtain rfl : ((x : Int), (y : Int)) = p := Option.some_injective _ hif
      refine ⟨?_, ?_, hc⟩ <;> simp
    · rw [if_neg hc] at hif
      cases hif
  · rintro ⟨h1, h2, h3⟩
    have hx : p.1.toNat ∈ List.range ((z.fdiv 63 + 1).toNat) := by
      rw [List.mem_range]
      rw [fdiv_sixtythree]
      omega
    have hy : p.2.toNat ∈ List.range ((z.fdiv 40 + 1).toNat) := by
      rw [List.mem_range]
      rw [fdiv_forty]
      omega
    refine List.mem_flatMap.mpr ⟨p.1.toNat, hx, List.mem_filterMap.mpr ⟨p.2.toNat, hy, ?_⟩⟩
    rw [Int.toNat_of_nonneg h1, Int.toNat_of_nonneg h2, if_pos h3]

lemma pickFirstMin_eq_none {l : List (Int × Int)} :
    pickFirstMin l = none ↔ l = [] := by
  cases l with
  | nil => simp [pickFirstMin]
  | cons a rest =>
    simp only [pickFirstMin]
    cases pickFirstMin rest with
    | none => simp
    | some q =>
      simp only
      split <;> simp

lemma pickFirstMin_cons_none {a : Int × Int} {rest : List (Int × Int)}
    (hr : pickFirstMin rest = none) :
    pickFirstMin (a :: rest) = some a := by
  rw [pickFirstMin, hr]

lemma pickFirstMin_cons_some_lt {a m : Int × Int} {rest : List (Int × Int)}
    (hr : pickFirstMin rest = some m) (hlt : m.1 + m.2 < a.1 + a.2) :
    pickFirstMin (a :: rest) = some m := by
  rw [pickFirstMin, hr]
  exact if_pos hlt

lemma pickFirstMin_cons_some_ge {a m : Int × Int} {rest : List (Int × Int)}
    (hr : pickFirstMin rest = some m) (hlt : ¬ m.1 + m.2 < a.1 + a.2) :
    pickFirstMin (a :: rest) = some a := by
  rw [pickFirstMin, hr]
  exact if_neg hlt

lemma pickFirstMin_mem {l : List (Int × Int)} {p : Int × Int}
    (h : pickFirstMin l = some p) : p ∈ l := by
  induction l generalizing p with
  | nil => cases h
  | cons a rest ih =>
    cases hr : pickFirstMin rest with
    | none =>
      rw [pickFirstMin_cons_none hr] at h
      injection h with h
      subst h
      exact List.mem_cons_self _ _
    | some q =>
      by_cases hlt : q.1 + q.2 < a.1 + a.2
      · rw [pickFirstMin_cons_some_lt hr hlt] at h
        injection h with h
        subst h
        exact List.mem_cons_of_mem _ (ih hr)
      · rw [pickFirstMin_cons_some_ge hr hlt] at h
        injection h with h
        subst h
        exact List.mem_cons_self _ _

lemma pickFirstMin_le {l : List (Int × Int)} {p : Int × Int}
    (h : pickFirstMin l = some p) :
    ∀ q ∈ l, p.1 + p.2 ≤ q.1 + q.2 := by
  induction l generalizing p with
  | nil => cases h
  | cons a rest ih =>
    intro q hq
    cases hr : pickFirstMin rest with
    | none =>
      rw [pickFirstMin_cons_none hr] at h
      injection h with h
      subst h
      rcases List.mem_cons.mp hq with rfl | hq'
      · exact le_refl _
      · rw [pickFirstMin_eq_none.mp hr] at hq'
        cases hq'
    | some m =>
      by_cases hlt : m.1 + m.2 < a.1 + a.2
      · rw [pickFirstMin_cons_some_lt hr hlt] at h
        injection h with h
        subst h
        rcases List.mem_cons.mp hq with rfl | hq'
        · exact le_of_lt hlt
        · exact ih hr q hq'
      · rw [pickFirstMin_cons_some_ge hr hlt] at h
        injection h with h
        subst h
        rcases List.mem_cons.mp hq with rfl | hq'
        · exact le_refl _
        · exact le_trans (not_lt.mp hlt) (ih hr q hq')

/-- Soundness and optimality of the exhaustive branch, over any input. -/
lemma under_2520_isOptimal {z : Int} {p : Int × Int}
    (h : _search_pair_with_the_smallest_sum_under_2520 z = some p) :
    IsOptimalPair z p := by
  have hmem := mem_solutionPairs.mp (pickFirstMin_mem h)
  refine ⟨hmem.1, hmem.2.1, hmem.2.2, ?_⟩
  intro q hq1 hq2 hq3
  exact pickFirstMin_le h q (mem_solutionPairs.mpr ⟨hq1, hq2, hq3⟩)

/-- The exhaustive branch fails exactly when no non-negative solution
exists. -/
lemma under_2520_eq_none_iff {z : Int} :
    _search_pair_with_the_smallest_sum_under_2520 z = none ↔
      ∀ q : Int × Int, 0 ≤ q.1 → 0 ≤ q.2 → 63 * q.1 + 40 * q.2 ≠ z := by
  rw [_search_pair_with_the_smallest_sum_under_2520, pickFirstMin_eq_none,
    List.eq_nil_iff_forall_not_mem]
  constructor
  · intro hall q hq1 hq2 hq3
    exact hall q (mem_solutionPairs.mpr ⟨hq1, hq2, hq3⟩)
  · intro hall q hq
    obtain ⟨h1, h2, h3⟩ := mem_solutionPairs.mp hq
    exact hall q h1 h2 h3

lemma solver_eq_closed {z : Int} (hz : 2520 ≤ z) :
    _search_pair_with_the_smallest_sum z =
      some (40 * Int.fdiv (-11 * z) 63 + 7 * z,
            -63 * Int.fdiv (-11 * z) 63 - 11 * z) := by
  rw [_search_pair_with_the_smallest_sum, if_neg (not_lt.mpr hz)]

lemma solver_eq_under {z : Int} (hz : z < 2520) :
    _search_pair_with_the_smallest_sum z =
      _search_pair_with_the_smallest_sum_under_2520 z := by
  rw [_search_pair_with_the_smallest_sum, if_pos hz]

/-- The closed-form pair is a non-negative solution of minimal sum. -/
lemma closedForm_isOptimal {z : Int} (hz : 2520 ≤ z) :
    IsOptimalPair z (40 * Int.fdiv (-11 * z) 63 + 7 * z,
                     -63 * Int.fdiv (-11 * z) 63 - 11 * z) := by
  have hb := fdiv_sixtythree (-11 * z)
  refine ⟨?_, ?_, ?_, ?_⟩
  · simp only
    rw [hb]
    omega
  · simp only
    rw [hb]
    omega
  · simp only
    rw [hb]
    omega
  · intro q hq1 hq2 hq3
    simp only at *
    rw [hb] at *
    have hy0 : 0 ≤ -63 * (-11 * z / 63) - 11 * z := by omega
    have hylt : -63 * (-11 * z / 63) - 11 * z < 63 := by omega
    have he : 63 * (40 * (-11 * z / 63) + 7 * z)
        + 40 * (-63 * (-11 * z / 63) - 11 * z) = z := by omega
    have h63 : (40 : Int) ∣ 63 * (q.1 - (40 * (-11 * z / 63) + 7 * z)) :=
      ⟨(-63 * (-11 * z / 63) - 11 * z) - q.2, by linarith⟩
    have hcop : IsCoprime (40 : Int) 63 := by
      rw [Int.isCoprime_iff_gcd_eq_one]
      decide
    obtain ⟨d, hd⟩ := hcop.dvd_of_dvd_mul_left h63
    omega

/-- Any pair the solver returns is a non-negative solution of minimal
sum, regardless of the branch taken. -/
lemma solver_isOptimal {z : Int} {p : Int × Int}
    (h : _search_pair_with_the_smallest_sum z = some p) :
    IsOptimalPair z p := by
  by_cases hz : z < 2520
  · rw [solver_eq_under hz] at h
    exact under_2520_isOptimal h
  · rw [solver_eq_closed (not_lt.mp hz)] at h
    cases h
    exact closedForm_isOptimal (not_lt.mp hz)

/-- The solver fails on every negative input. -/
lemma solver_neg_eq_none {z : Int} (hz : z < 0) :
    _search_pair_with_the_smallest_sum z = none := by
  rw [solver_eq_under (by omega), under_2520_eq_none_iff]
  intro q hq1 hq2
  omega

/-! ## The scanning loop -/

/-- Once the loop condition fails, the scan returns its accumulator
untouched, whatever fuel remains. -/
lemma scanAux_exit (M : ProbeModel) (total fuel k index : Nat)
    (acc : List (Nat × Int)) (h : ¬ index ≤ total) :
    scanAux M total fuel k index acc = some acc := by
  cases fuel <;> simp only [scanAux] <;> rw [if_neg h]

/-- With positive probe costs, fuel covering the remaining distance
suffices: the scan terminates with a result. -/
lemma scanAux_some (M : ProbeModel) (hpos : ∀ k, 1 ≤ M.cost k) (total : Nat) :
    ∀ fuel k index acc, total + 1 ≤ index + fuel →
      ∃ r, scanAux M total fuel k index acc = some r := by
  intro fuel
  induction fuel with
  | zero =>
    intro k index acc hf
    exact ⟨acc, scanAux_exit M total 0 k index acc (by omega)⟩
  | succ f ih =>
    intro k index acc hf
    by_cases hle : index ≤ total
    · simp only [scanAux]
      rw [if_pos hle]
      exact ih (k + 1) (index + M.cost k) _ (by have := hpos k; omega)
    · exact ⟨acc, scanAux_exit M total (f + 1) k index acc hle⟩

/-- The scan's result is non-empty, and every entry but the final
overshooting one has a non-negative leftover. -/
lemma scanAux_dropLast_nonneg (M : ProbeModel) (total : Nat) :
    ∀ fuel k index acc r, (∀ e ∈ acc, 0 ≤ e.2) → index ≤ total →
      scanAux M total fuel k index acc = some r →
      r ≠ [] ∧ ∀ e ∈ r.dropLast, 0 ≤ e.2 := by
  intro fuel
  induction fuel with
  | zero =>
    intro k index acc r hacc hle h
    simp only [scanAux] at h
    rw [if_pos hle] at h
    cases h
  | succ f ih =>
    intro k index acc r hacc hle h
    simp only [scanAux] at h
    rw [if_pos hle] at h
    by_cases hle' : index + M.cost k ≤ total
    · refine ih (k + 1) (index + M.cost k) _ r ?_ hle' h
      intro e he
      rcases List.mem_append.mp he with he' | he'
      · exact hacc e he'
      · obtain rfl := List.mem_singleton.mp he'
        simp only
        omega
    · rw [scanAux_exit M total f (k + 1) _ _ hle'] at h
      injection h with h
      subst h
      refine ⟨by simp, ?_⟩
      rw [List.dropLast_concat]
      exact hacc

/-- Every leftover the scan records is at most the total distance. -/
lemma scanAux_le_total (M : ProbeModel) (total : Nat) :
    ∀ fuel k index acc r, (∀ e ∈ acc, e.2 ≤ (total : Int)) →
      scanAux M total fuel k index acc = some r →
      ∀ e ∈ r, e.2 ≤ (total : Int) := by
  intro fuel
  induction fuel with
  | zero =>
    intro k index acc r hacc h
    simp only [scanAux] at h
    by_cases hle : index ≤ total
    · rw [if_pos hle] at h
      cases h
    · rw [if_neg hle] at h
      injection h with h
      subst h
      exact hacc
  | succ f ih =>
    intro k index acc r hacc h
    simp only [scanAux] at h
    by_cases hle : index ≤ total
    · rw [if_pos hle] at h
      refine ih (k + 1) (index + M.cost k) _ r ?_ h
      intro e he
      rcases List.mem_append.mp he with he' | he'
      · exact hacc e he'
      · obtain rfl := List.mem_singleton.mp he'
        simp only
        omega
    · rw [if_neg hle] at h
      injection h with h
      subst h
      exact hacc

/-- With positive probe costs the whole pipeline up to the `pop` is safe:
the scan yields a non-empty raw sequence, the `pop` succeeds, and every
retained leftover is non-negative. -/
lemma scanSequence_facts (M : ProbeModel) (hpos : ∀ k, 1 ≤ M.cost k) (total : Nat) :
    ∃ raw, scanSequence M total = some raw ∧ raw ≠ [] ∧
      popLast raw = some raw.dropLast ∧ ∀ e ∈ raw.dropLast, 0 ≤ e.2 := by
  obtain ⟨raw, hraw⟩ := scanAux_some M hpos total (total + 2) 0 0 [] (by omega)
  obtain ⟨hne, hnn⟩ := scanAux_dropLast_nonneg M total (total + 2) 0 0 [] raw
    (by intro e he; cases he) (Nat.zero_le total) hraw
  refine ⟨raw, hraw, hne, ?_, hnn⟩
  rw [popLast, if_neg]
  simpa using hne

/-- Every entry of the retained (popped) sequence has leftover at most the
total distance. -/
lemma sequencePopped_le_total {M : ProbeModel} {total : Nat} {seq : List (Nat × Int)}
    (h : sequencePopped M total = some seq) :
    ∀ e ∈ seq, e.2 ≤ (total : Int) := by
  rw [sequencePopped] at h
  cases hr : scanSequence M total with
  | none => rw [hr] at h; cases h
  | some raw =>
    rw [hr] at h
    change popLast raw = some seq at h
    rw [popLast] at h
    by_cases hemp : raw.isEmpty
    · rw [if_pos hemp] at h
      cases h
    · rw [if_neg hemp] at h
      injection h with h
      subst h
      intro e he
      have hmem : e ∈ raw := (List.dropLast_sublist raw).subset he
      exact scanAux_le_total M total (total + 2) 0 0 [] raw
        (by intro x hx; cases hx) hr e hmem

/-- With positive probe costs the retained sequence exists. -/
lemma sequencePopped_some (M : ProbeModel) (hpos : ∀ k, 1 ≤ M.cost k) (total : Nat) :
    ∃ seq, sequencePopped M total = some seq := by
  obtain ⟨raw, hraw, _, hpop, _⟩ := scanSequence_facts M hpos total
  exact ⟨raw.dropLast, by rw [sequencePopped, hraw]; exact hpop⟩

/-! ## The loading-mode truncation loop -/

lemma dropTrailingLoop_nil (bound : Int) : dropTrailingLoop bound [] = [] := by
  rw [dropTrailingLoop]
  split
  · rfl
  · next e heq => cases heq

lemma dropTrailingLoop_drop {bound : Int} {l : List (Nat × Int)} {e : Nat × Int}
    (hx : l.getLast? = some e) (hlt : e.2 < bound) :
    dropTrailingLoop bound l = dropTrailingLoop bound l.dropLast := by
  rw [dropTrailingLoop]
  split
  · next heq => rw [heq] at hx; cases hx
  · next e' heq =>
    rw [heq] at hx
    injection hx with hx
    subst hx
    rw [if_pos hlt]

lemma dropTrailingLoop_keep {bound : Int} {l : List (Nat × Int)} {e : Nat × Int}
    (hx : l.getLast? = some e) (hlt : ¬ e.2 < bound) :
    dropTrailingLoop bound l = l := by
  rw [dropTrailingLoop]
  split
  · rfl
  · next e' heq =>
    rw [heq] at hx
    injection hx with hx
    subst hx
    rw [if_neg hlt]

/-- The imperative while/pop loop of the source equals the spec's
description: drop trailing entries while the last leftover is strictly
below the bound. -/
lemma dropTrailingLoop_eq_specRetained (bound : Int) (l : List (Nat × Int)) :
    dropTrailingLoop bound l = specRetained bound l := by
  refine dropTrailingLoop.induct bound
    (fun x => dropTrailingLoop bound x = specRetained bound x) ?_ ?_ ?_ l
  · intro x hx
    obtain rfl : x = [] := by
      cases x with
      | nil => rfl
      | cons a as => simp at hx
    rw [dropTrailingLoop_nil]
    rfl
  · intro x e hx hlt ih
    obtain ⟨ys, rfl⟩ := List.getLast?_eq_some_iff.mp hx
    rw [dropTrailingLoop_drop hx hlt, List.dropLast_concat] at *
    rw [ih]
    unfold specRetained
    rw [List.reverse_append]
    simp only [List.reverse_cons, List.reverse_nil, List.nil_append, List.singleton_append]
    rw [List.dropWhile_cons, if_pos (by simpa using hlt)]
  · intro x e hx hlt
    obtain ⟨ys, rfl⟩ := List.getLast?_eq_some_iff.mp hx
    rw [dropTrailingLoop_keep hx hlt]
    unfold specRetained
    rw [List.reverse_append]
    simp only [List.reverse_cons, List.reverse_nil, List.nil_append, List.singleton_append]
    rw [List.dropWhile_cons, if_neg (by simpa using hlt)]
    simp

/-- The last retained entry of the truncation loop is an entry of the
input that satisfies the bound. -/
lemma dropTrailingLoop_getLast {bound : Int} {l : List (Nat × Int)} {e : Nat × Int}
    (h : (dropTrailingLoop bound l).getLast? = some e) :
    e ∈ l ∧ ¬ e.2 < bound := by
  rw [dropTrailingLoop_eq_specRetained] at h
  rw [specRetained, List.getLast?_reverse] at h
  constructor
  · have hmem : e ∈ l.reverse.dropWhile (fun x => decide (x.2 < bound)) :=
      List.mem_of_mem_head? h
    exact List.mem_reverse.mp ((List.dropWhile_sublist _).subset hmem)
  · have h2 := List.head?_dropWhile_not (fun x => decide (x.2 < bound)) l.reverse
    rw [h] at h2
    simpa using h2

/-! ## Claim theorems -/

/-- C2: for every total ≥ 2520 the Action-Cost Solver returns a pair
`(x, y)` with `63*x + 40*y = total`, both components non-negative, and no
other non-negative pair solving the equation has a smaller sum; in
particular it never reports infeasibility for such totals. -/
theorem C2_solver_optimal_above_2520 (total : Int) (h : 2520 ≤ total) :
    ∃ p, _search_pair_with_the_smallest_sum total = some p ∧ IsOptimalPair total p :=
  ⟨_, solver_eq_closed h, closedForm_isOptimal h⟩

/-- Witness for C2 at `total = 2520`. -/
theorem C2_solver_optimal_above_2520_witness :
    ∃ p, _search_pair_with_the_smallest_sum 2520 = some p ∧ IsOptimalPair 2520 p :=
  C2_solver_optimal_above_2520 2520 (by norm_num)

/-- C4: for every `0 ≤ total < 2520` the solver returns exactly the
exhaustive-search optimum and fails exactly when no non-negative pair
satisfies `63*x + 40*y = total`; concretely it fails at 2417 and succeeds
at 2520. -/
theorem C4_solver_under_2520_exhaustive (total : Int) (h0 : 0 ≤ total)
    (h1 : total < 2520) :
    (∀ p, _search_pair_with_the_smallest_sum total = some p → IsOptimalPair total p) ∧
    (_search_pair_with_the_smallest_sum total = none ↔
      ∀ q : Int × Int, 0 ≤ q.1 → 0 ≤ q.2 → 63 * q.1 + 40 * q.2 ≠ total) ∧
    _search_pair_with_the_smallest_sum 2417 = none ∧
    _search_pair_with_the_smallest_sum 2520 = some (40, 0) := by
  refine ⟨fun p hp => solver_isOptimal hp, ?_, ?_, ?_⟩
  · rw [solver_eq_under h1]
    exact under_2520_eq_none_iff
  · rw [solver_eq_under (by norm_num), under_2520_eq_none_iff]
    intro q hq1 hq2
    omega
  · rw [solver_eq_closed (by norm_num)]
    decide

/-- Witness for C4 at `total = 103` (solved by one write-report and one
change-setting). -/
theorem C4_solver_under_2520_exhaustive_witness :
    (∀ p, _search_pair_with_the_smallest_sum 103 = some p → IsOptimalPair 103 p) ∧
    (_search_pair_with_the_smallest_sum 103 = none ↔
      ∀ q : Int × Int, 0 ≤ q.1 → 0 ≤ q.2 → 63 * q.1 + 40 * q.2 ≠ 103) ∧
    _search_pair_with_the_smallest_sum 2417 = none ∧
    _search_pair_with_the_smallest_sum 2520 = some (40, 0) :=
  C4_solver_under_2520_exhaustive 103 (by norm_num) (by norm_num)

/-- C8: whenever the solver succeeds on a total with a pair of sum `s`, it
also succeeds on `total + 2520` with a pair of sum at most `s + 40`. -/
theorem C8_solver_monotone (total : Int) (p : Int × Int)
    (h : _search_pair_with_the_smallest_sum total = some p) :
    ∃ q, _search_pair_with_the_smallest_sum (total + 2520) = some q ∧
      q.1 + q.2 ≤ p.1 + p.2 + 40 := by
  obtain ⟨hp1, hp2, hp3, _⟩ := solver_isOptimal h
  have htot : 2520 ≤ total + 2520 := by omega
  refine ⟨_, solver_eq_closed htot, ?_⟩
  have hopt := closedForm_isOptimal htot
  have hcand := hopt.2.2.2 (p.1 + 40, p.2) ?_ ?_ ?_
  · simp only at hcand ⊢
    linarith
  · show (0 : Int) ≤ p.1 + 40
    omega
  · exact hp2
  · show 63 * (p.1 + 40) + 40 * p.2 = total + 2520
    omega

/-- Witness for C8 at `total = 2520`, `p = (40, 0)`. -/
theorem C8_solver_monotone_witness :
    ∃ q, _search_pair_with_the_smallest_sum (2520 + 2520) = some q ∧
      q.1 + q.2 ≤ 40 + 0 + 40 :=
  C8_solver_monotone 2520 (40, 0) (by decide)

/-- C9: with a non-negative step distance and probes that consume at
least one step each, the scanning loop runs at least once, so the final
`pop()` acts on a non-empty list, and every retained entry's leftover is
non-negative. -/
theorem C9_scan_pop_safe (M : ProbeModel) (hpos : ∀ k, 1 ≤ M.cost k) (total : Nat) :
    ∃ raw, scanSequence M total = some raw ∧ raw ≠ [] ∧
      popLast raw = some raw.dropLast ∧ ∀ e ∈ raw.dropLast, 0 ≤ e.2 :=
  scanSequence_facts M hpos total

/-- Witness for C9 on the concrete probe model `Mtest` at distance 57. -/
theorem C9_scan_pop_safe_witness :
    ∃ raw, scanSequence Mtest 57 = some raw ∧ raw ≠ [] ∧
      popLast raw = some raw.dropLast ∧ ∀ e ∈ raw.dropLast, 0 ≤ e.2 :=
  C9_scan_pop_safe Mtest (by intro k; rw [Mtest]; dsimp only; split <;> omega) 57

/-- C7: in no-loading mode with an empty retained probe sequence,
`search_path` succeeds exactly when the total distance is divisible by 40,
returning no probe records and `totalSteps / 40` change-settings, and
raises the unreachable error otherwise. -/
theorem C7_empty_sequence_no_loading (M : ProbeModel) (c t total : Nat)
    (hseq : sequencePopped M total = some []) :
    search_path M c t total none =
      some (if (total : Int) % 40 = 0
            then Except.ok ([], (total : Int) / 40, 0)
            else Except.error (PlanError.unreachable c t)) := by
  rw [search_path, hseq]
  show some (searchPathCore M c t total none []) = _
  simp only [searchPathCore, ADVANCES_BY_CHANGING_SETTING, List.isEmpty_nil, if_true,
    fmod_forty, fdiv_forty, reconstruct, List.length_nil, List.range_zero, List.map_nil]
  by_cases h40 : (total : Int) % 40 = 0
  · rw [if_neg (not_not_intro h40), if_pos h40]
  · rw [if_pos h40, if_neg h40]

/-- Witness for C7: distance 80 (divisible by 40) with every probe costing
100 steps, so the retained sequence is empty. -/
theorem C7_empty_sequence_no_loading_witness :
    search_path Mbig 0 80 80 none =
      some (if (80 : Int) % 40 = 0
            then Except.ok ([], (80 : Int) / 40, 0)
            else Except.error (PlanError.unreachable 0 80)) :=
  C7_empty_sequence_no_loading Mbig 0 80 80 rfl

/-- C6: in loading mode `search_path` either fully succeeds or returns the
single unreachable error carrying both endpoint seeds, and it returns that
error exactly when the Action-Cost Solver fails on the leftover it was
given. -/
theorem C6_solver_failure_surfaces (M : ProbeModel) (c t total : Nat) (n : Int)
    (seq : List (Nat × Int)) (hseq : sequencePopped M total = some seq) :
    ∀ r, search_path M c t total (some n) = some r →
      (r = Except.error (PlanError.unreachable c t) ∨ ∃ p, r = Except.ok p) ∧
      (r = Except.error (PlanError.unreachable c t) ↔
        _search_pair_with_the_smallest_sum (loadingLeftover total n seq) = none) := by
  intro r hr
  rw [search_path, hseq] at hr
  change some (searchPathCore M c t total (some n) seq) = some r at hr
  injection hr with hr
  subst hr
  have hcore : searchPathCore M c t total (some n) seq =
      match _search_pair_with_the_smallest_sum (loadingLeftover total n seq) with
      | none => Except.error (PlanError.unreachable c t)
      | some (write_report, change_setting) =>
        Except.ok (reconstruct M ((dropTrailingLoop
            (ADVANCES_BY_WRITING_REPORT * ADVANCES_BY_CHANGING_SETTING + (n - 1) * 2)
            seq).map Prod.fst), change_setting, write_report) := rfl
  rw [hcore]
  cases hsol : _search_pair_with_the_smallest_sum (loadingLeftover total n seq) with
  | none =>
    refine ⟨Or.inl rfl, ?_⟩
    simp
  | some pair =>
    obtain ⟨wr, cs⟩ := pair
    refine ⟨Or.inr ⟨_, rfl⟩, ?_⟩
    simp

/-- Witness for C6 on `Mtest` at distance 57 in loading mode (the solver
fails on leftover 57, so the call errors). -/
theorem C6_solver_failure_surfaces_witness :
    ((Except.error (PlanError.unreachable 0 57) : Except PlanError PathResult) =
        Except.error (PlanError.unreachable 0 57) ∨
      ∃ p, (Except.error (PlanError.unreachable 0 57) : Except PlanError PathResult) =
        Except.ok p) ∧
    ((Except.error (PlanError.unreachable 0 57) : Except PlanError PathResult) =
        Except.error (PlanError.unreachable 0 57) ↔
      _search_pair_with_the_smallest_sum
        (loadingLeftover 57 1 [(0, 40), (1, 10)]) = none) :=
  C6_solver_failure_surfaces Mtest 0 57 57 1 [(0, 40), (1, 10)] rfl
    (Except.error (PlanError.unreachable 0 57))
    (by
      have h1 : sequencePopped Mtest 57 = some [(0, 40), (1, 10)] := rfl
      rw [search_path, h1]
      show some (searchPathCore Mtest 0 57 57 (some 1) [(0, 40), (1, 10)]) = _
      have hcore : searchPathCore Mtest 0 57 57 (some 1) [(0, 40), (1, 10)] =
          match _search_pair_with_the_smallest_sum
              (loadingLeftover 57 1 [(0, 40), (1, 10)]) with
          | none => Except.error (PlanError.unreachable 0 57)
          | some (write_report, change_setting) =>
            Except.ok (reconstruct Mtest ((dropTrailingLoop
                (ADVANCES_BY_WRITING_REPORT * ADVANCES_BY_CHANGING_SETTING
                  + ((1 : Int) - 1) * 2)
                [(0, 40), (1, 10)]).map Prod.fst), change_setting, write_report) := rfl
      have hdrop : dropTrailingLoop
          (ADVANCES_BY_WRITING_REPORT * ADVANCES_BY_CHANGING_SETTING
            + ((1 : Int) - 1) * 2)
          [(0, 40), (1, 10)] = [] := by
        rw [dropTrailingLoop_eq_specRetained]
        rfl
      have hleft : loadingLeftover 57 1 [(0, 40), (1, 10)] = 57 := by
        rw [loadingLeftover, hdrop]
        decide
      have hsol : _search_pair_with_the_smallest_sum 57 = none := by
        rw [solver_eq_under (by norm_num), under_2520_eq_none_iff]
        intro q hq1 hq2
        omega
      rw [hcore, hleft, hsol])

/-- C5: in loading mode with `loadingCount ≥ 1`, `search_path` uses
`loadingSteps = (loadingCount - 1) * 2`, drops trailing probe entries
whose leftover is strictly below `63*40 + loadingSteps` (keeping an entry
that meets the bound exactly), and passes to the solver the last retained
leftover minus `loadingSteps`, or `totalSteps - loadingSteps` when the
sequence became empty. -/
theorem C5_loading_truncation (M : ProbeModel) (c t total : Nat) (n : Int)
    (hn : 1 ≤ n) (seq : List (Nat × Int)) (hseq : sequencePopped M total = some seq) :
    search_path M c t total (some n) = some (
      match _search_pair_with_the_smallest_sum
          (match (specRetained (63 * 40 + (n - 1) * 2) seq).getLast? with
           | none => (total : Int) - (n - 1) * 2
           | some e => e.2 - (n - 1) * 2) with
      | none => Except.error (PlanError.unreachable c t)
      | some (write_report, change_setting) =>
        Except.ok (reconstruct M ((specRetained (63 * 40 + (n - 1) * 2) seq).map Prod.fst),
          change_setting, write_report)) ∧
    (∀ e, seq.getLast? = some e → ¬ e.2 < 63 * 40 + (n - 1) * 2 →
      specRetained (63 * 40 + (n - 1) * 2) seq = seq) := by
  constructor
  · rw [search_path, hseq]
    show some (searchPathCore M c t total (some n) seq) = _
    rw [← dropTrailingLoop_eq_specRetained]
    rfl
  · intro e he hlt
    rw [← dropTrailingLoop_eq_specRetained]
    exact dropTrailingLoop_keep he hlt

/-- Witness for C5 on `Mtest` at distance 57 with `loadingCount = 1`. -/
theorem C5_loading_truncation_witness :
    search_path Mtest 0 57 57 (some 1) = some (
      match _search_pair_with_the_smallest_sum
          (match (specRetained (63 * 40 + (1 - 1) * 2) [(0, 40), (1, 10)]).getLast? with
           | none => ((57 : Nat) : Int) - (1 - 1) * 2
           | some e => e.2 - (1 - 1) * 2) with
      | none => Except.error (PlanError.unreachable 0 57)
      | some (write_report, change_setting) =>
        Except.ok (reconstruct Mtest
          ((specRetained (63 * 40 + (1 - 1) * 2) [(0, 40), (1, 10)]).map Prod.fst),
          change_setting, write_report)) ∧
    (∀ e, ([(0, 40), (1, 10)] : List (Nat × Int)).getLast? = some e →
      ¬ e.2 < 63 * 40 + (1 - 1) * 2 →
      specRetained (63 * 40 + (1 - 1) * 2) [(0, 40), (1, 10)] = [(0, 40), (1, 10)]) :=
  C5_loading_truncation Mtest 0 57 57 1 (by norm_num) [(0, 40), (1, 10)] rfl

/-- C10: the solver fails on every negative input, and in loading mode a
loading cost exceeding the available steps makes `search_path` raise the
unreachable error. -/
theorem C10_loading_cost_exceeds (M : ProbeModel) (c t total : Nat) (n : Int)
    (seq : List (Nat × Int)) (hseq : sequencePopped M total = some seq)
    (hneg : (total : Int) - (n - 1) * 2 < 0) :
    (∀ z : Int, z < 0 → _search_pair_with_the_smallest_sum z = none) ∧
    search_path M c t total (some n) = some (Except.error (PlanError.unreachable c t)) := by
  refine ⟨fun z hz => solver_neg_eq_none hz, ?_⟩
  have hnone : (dropTrailingLoop
      (ADVANCES_BY_WRITING_REPORT * ADVANCES_BY_CHANGING_SETTING + (n - 1) * 2)
      seq).getLast? = none := by
    cases hg : (dropTrailingLoop
        (ADVANCES_BY_WRITING_REPORT * ADVANCES_BY_CHANGING_SETTING + (n - 1) * 2)
        seq).getLast? with
    | none => rfl
    | some e =>
      obtain ⟨hmem, hge⟩ := dropTrailingLoop_getLast hg
      have hle := sequencePopped_le_total hseq e hmem
      have hB : (ADVANCES_BY_WRITING_REPORT * ADVANCES_BY_CHANGING_SETTING : Int) = 2520 := by
        decide
      rw [hB] at hge
      omega
  have hleft : loadingLeftover total n seq = (total : Int) - (n - 1) * 2 := by
    rw [loadingLeftover, hnone]
  rw [search_path, hseq]
  show some (searchPathCore M c t total (some n) seq) = _
  have hcore : searchPathCore M c t total (some n) seq =
      match _search_pair_with_the_smallest_sum (loadingLeftover total n seq) with
      | none => Except.error (PlanError.unreachable c t)
      | some (write_report, change_setting) =>
        Except.ok (reconstruct M ((dropTrailingLoop
            (ADVANCES_BY_WRITING_REPORT * ADVANCES_BY_CHANGING_SETTING + (n - 1) * 2)
            seq).map Prod.fst), change_setting, write_report) := rfl
  rw [hcore, hleft, solver_neg_eq_none hneg]

/-- Witness for C10: distance 1, `loadingCount = 2` (loading costs 2
steps), so the remainder is negative and the call errors. -/
theorem C10_loading_cost_exceeds_witness :
    (∀ z : Int, z < 0 → _search_pair_with_the_smallest_sum z = none) ∧
    search_path Mtest 0 1 1 (some 2) = some (Except.error (PlanError.unreachable 0 1)) :=
  C10_loading_cost_exceeds Mtest 0 1 1 2 [] rfl (by norm_num)

/-- C1: counterexample to exact step reconciliation.  At distance 57 with
probe costs 17, 30, 30, ... the retained leftovers are 40 and 10; only
index 0 is divisible by 40, and the code then keeps BOTH probe records
while consuming the leftover of the first, so the returned path replays to
17 + 30 + 40·1 = 87 ≠ 57 steps. -/
theorem C1_reconciliation_fails :
    search_path Mtest 0 57 57 none =
      some (Except.ok ([(0, 0, []), (1, 17, [])], 1, 0)) ∧
    consumedSteps Mtest ([(0, 0, []), (1, 17, [])], 1, 0) = 87 ∧
    (87 : Int) ≠ 57 :=
  ⟨rfl, rfl, by decide⟩

/-- C3: counterexample to truncation at index 0.  The retained sequence
has two entries and the backward scan stops at index 0, but the returned
path contains 2 probe records instead of the 1-entry prefix the claim
requires. -/
theorem C3_index_zero_not_truncated :
    sequencePopped Mtest 57 = some [(0, 40), (1, 10)] ∧
    lastFinishIndex [(0, 40), (1, 10)] = some 0 ∧
    (∃ p : PathResult, search_path Mtest 0 57 57 none = some (Except.ok p) ∧
      p.1.length = 2) :=
  ⟨rfl, rfl, ⟨([(0, 0, []), (1, 17, [])], 1, 0), rfl, rfl⟩⟩
